import Mathlib

/-!
Shallow embedding of the Othello rules engine (`src/board.rs`, `src/lib.rs`,
and the `GameState` described by the design document, whose source file
`state.rs` is not among the supplied sources).

Rust panics (failed `assert!`, failed `try_from`, out-of-range `Vec` indexing)
are modelled by `Option`: a result of `none` means the Rust code panics.
The directional while-loops of `board.rs` are modelled with an explicit fuel
argument; fuel 16 is proved sufficient for every in-bounds starting point.
-/

namespace Othello

/-- The two piece colors, `Piece` in `board.rs`. -/
inductive Piece where
  | Black
  | White
deriving DecidableEq, Repr

/-- The `impl Not for Piece`: opponent of a piece. -/
def Piece.not : Piece → Piece
  | .Black => .White
  | .White => .Black

/-- The `PlaceError` enum of `lib.rs`. -/
inductive PlaceError where
  | Occupied (x y : Nat)
  | Turn (piece : Piece)
  | NotAdjacent (x y : Nat)
  | OutOfBounds (x y : Nat)
  | NoFlips (x y : Nat)
deriving DecidableEq, Repr

/-- `Board` is a `Vec<Option<Piece>>`; we model the vector as a list. -/
abbrev Board := List (Option Piece)

/-- The `DIRECTIONS` constant of `board.rs`: the 8 compass steps. -/
def DIRECTIONS : List (Int × Int) :=
  [(-1, -1), (0, -1), (1, -1), (-1, 0), (1, 0), (-1, 1), (0, 1), (1, 1)]

/-- `Board::width()`: the constant 8. -/
abbrev Board.width : Nat := 8

/-- The `WIDTH` constant of `board.rs` (`Board::width() as i8`). -/
abbrev WIDTH : Int := 8

/-- `self[(x, y)]` via the `Index` impl: linear index `x + y * width` into the
vector; `none` models the panic of an out-of-range index. -/
def Board.read (b : Board) (x y : Nat) : Option (Option Piece) :=
  b[x + y * Board.width]?

/-- The while-loop condition of the directional walks:
`x >= 0 && y >= 0 && x < WIDTH && y < WIDTH`. -/
abbrev InB (x y : Int) : Prop := 0 ≤ x ∧ 0 ≤ y ∧ x < WIDTH ∧ y < WIDTH

/-- Linear index of an in-bounds signed position after the `usize::try_from`
conversions: `x + y * width`. -/
def toIdx (x y : Int) : Nat := x.toNat + y.toNat * Board.width

/-- Fuel used for the directional while-loops; proved sufficient below. -/
def FUEL : Nat := 16

/-- Loop body of `Board::on`: starting at `(x, y)` and stepping by `(dx, dy)`,
scan while in bounds; return `true` on the first cell holding `piece`. -/
def Board.onAux (b : Board) (piece : Piece) (dx dy : Int) :
    Nat → Int → Int → Option Bool
  | 0, _, _ => none
  | fuel + 1, x, y =>
    if InB x y then
      match b[toIdx x y]? with
      | none => none
      | some cell =>
        if cell = some piece then some true
        else Board.onAux b piece dx dy fuel (x + dx) (y + dy)
    else some false

/-- `Board::on((x, y), (dx, dy), piece)`: the loop starts at `(x+dx, y+dy)`. -/
def Board.on (b : Board) (x y dx dy : Int) (piece : Piece) : Option Bool :=
  Board.onAux b piece dx dy FUEL (x + dx) (y + dy)

/-- Loop body of `Board::walk`: visit consecutive cells holding the opponent
of `piece`, stopping at a cell of `piece`'s color, an empty cell, or the
board edge. Returns the list of linear indices at which the callback `f`
is invoked, in order. -/
def Board.walkAux (b : Board) (piece : Piece) (dx dy : Int) :
    Nat → Int → Int → Option (List Nat)
  | 0, _, _ => none
  | fuel + 1, x, y =>
    if InB x y then
      match b[toIdx x y]? with
      | none => none
      | some cell =>
        if cell = some (Piece.not piece) then
          match Board.walkAux b piece dx dy fuel (x + dx) (y + dy) with
          | none => none
          | some rest => some (toIdx x y :: rest)
        else some []
    else some []

/-- Loop body of `Board::walk_mut` as called from `Board::flip`: like
`walkAux` but the callback writes `Some(piece)` into each visited cell, and
subsequent reads see the mutated board. -/
def Board.walkMutAux (piece : Piece) (dx dy : Int) :
    Nat → Board → Int → Int → Option Board
  | 0, _, _, _ => none
  | fuel + 1, b, x, y =>
    if InB x y then
      match b[toIdx x y]? with
      | none => none
      | some cell =>
        if cell = some (Piece.not piece) then
          Board.walkMutAux piece dx dy fuel
            (b.set (toIdx x y) (some piece)) (x + dx) (y + dy)
        else some b
    else some b

/-- One direction's contribution inside `Board::flips`: if `on` holds, the
number of callback invocations of the `walk`; otherwise 0. -/
def Board.flipsDir (b : Board) (xi yi : Int) (d : Int × Int) (piece : Piece) :
    Option Nat :=
  match Board.on b xi yi d.1 d.2 piece with
  | none => none
  | some false => some 0
  | some true =>
    match Board.walkAux b piece d.1 d.2 FUEL (xi + d.1) (yi + d.2) with
    | none => none
    | some visited => some visited.length

/-- `Board::flips(x, y, piece)`: asserts `x, y < width`, then counts, over the
8 directions passing the `on` test, the cells visited by `walk`. -/
def Board.flips (b : Board) (x y : Nat) (piece : Piece) : Option Nat :=
  if x < Board.width ∧ y < Board.width then
    DIRECTIONS.foldl (fun acc d =>
      match acc, Board.flipsDir b (x : Int) (y : Int) d piece with
      | some count, some k => some (count + k)
      | _, _ => none) (some 0)
  else none

/-- One direction's effect inside `Board::flip`: if `on` holds on the current
board, run `walk_mut` writing `piece` into the visited cells. -/
def Board.flipDir (d : Int × Int) (piece : Piece) (b : Board) (xi yi : Int) :
    Option Board :=
  match Board.on b xi yi d.1 d.2 piece with
  | none => none
  | some false => some b
  | some true => Board.walkMutAux piece d.1 d.2 FUEL b (xi + d.1) (yi + d.2)

/-- `Board::flip(x, y, piece)`: asserts `x, y < width`, then for each of the 8
directions in order, tests `on` on the current board state and applies the
mutating walk. -/
def Board.flip (b : Board) (x y : Nat) (piece : Piece) : Option Board :=
  if x < Board.width ∧ y < Board.width then
    DIRECTIONS.foldl (fun acc d =>
      match acc with
      | none => none
      | some b' => Board.flipDir d piece b' (x : Int) (y : Int)) (some b)
  else none

/-- Short-circuiting `.any(|(x, y)| self[(x, y)].is_some())` over the listed
cells; `none` models an indexing panic. -/
def Board.anyPopulated (b : Board) : List (Nat × Nat) → Option Bool
  | [] => some false
  | p :: rest =>
    match Board.read b p.1 p.2 with
    | none => none
    | some cell => if cell.isSome then some true else Board.anyPopulated b rest

/-- The neighbor list built by `Board::adjacent`: directions whose first step
stays non-negative, converted to `usize`, then filtered to the grid. -/
def Board.neighborCells (x y : Nat) : List (Nat × Nat) :=
  ((DIRECTIONS.filter fun d =>
      decide (0 ≤ (x : Int) + d.1 ∧ 0 ≤ (y : Int) + d.2)).map fun d =>
    (((x : Int) + d.1).toNat, ((y : Int) + d.2).toNat)).filter fun p =>
    decide (p.1 < Board.width ∧ p.2 < Board.width)

/-- `Board::adjacent(x, y)`: asserts `x, y < width`, then returns `Ok` of
whether any surviving neighbor cell is populated. -/
def Board.adjacent (b : Board) (x y : Nat) : Option (Except PlaceError Bool) :=
  if x < Board.width ∧ y < Board.width then
    match Board.anyPopulated b (Board.neighborCells x y) with
    | none => none
    | some r => some (Except.ok r)
  else none

/-- `Board::new()`: 64 empty cells, then the four central pieces are set:
White at (3,3), Black at (4,3), Black at (3,4), White at (4,4). -/
def Board.new : Board :=
  ((((List.replicate (Board.width * Board.width) none).set
        (3 + 3 * Board.width) (some Piece.White)).set
      (4 + 3 * Board.width) (some Piece.Black)).set
    (3 + 4 * Board.width) (some Piece.Black)).set
    (4 + 4 * Board.width) (some Piece.White)

/-- Modelled from the spec: `GameState` (file `state.rs`, not among the
supplied sources) owns one `Board` and one piece-to-move-next value. -/
structure State where
  board : Board
  turn : Piece

/-- Modelled from the spec: a new game has the canonical starting board and
Black to move. -/
def State.new : State := ⟨Board.new, Piece.Black⟩

/-- Modelled from the spec: `GameState::place(x, y, piece)` (file `state.rs`,
not among the supplied sources). Validation order, first failing check wins:
OutOfBounds, Turn, Occupied, NotAdjacent, NoFlips; on success apply `flip`,
place the piece at `(x, y)` and alternate the turn. The returned pair is the
game state after the call together with the `Result` value; `none` models a
panic inside the board primitives. -/
def State.place (s : State) (x y : Nat) (piece : Piece) :
    Option (State × Except PlaceError Unit) :=
  if 8 ≤ x ∨ 8 ≤ y then some (s, Except.error (PlaceError.OutOfBounds x y))
  else if piece ≠ s.turn then some (s, Except.error (PlaceError.Turn piece))
  else
    match Board.read s.board x y with
    | none => none
    | some (some _) => some (s, Except.error (PlaceError.Occupied x y))
    | some none =>
      match Board.adjacent s.board x y with
      | none => none
      | some (Except.error e) => some (s, Except.error e)
      | some (Except.ok adj) =>
        if adj then
          match Board.flips s.board x y piece with
          | none => none
          | some 0 => some (s, Except.error (PlaceError.NoFlips x y))
          | some (_ + 1) =>
            match Board.flip s.board x y piece with
            | none => none
            | some b' =>
              some (⟨b'.set (x + y * Board.width) (some piece), Piece.not s.turn⟩,
                Except.ok ())
        else some (s, Except.error (PlaceError.NotAdjacent x y))

/-- Follows the spec words for claim C1 (the sandwich rule), not the source:
walking outward, the length of the run of consecutive opponent cells provided
it is immediately followed by a cell of `piece`'s color; `none` when the run
is terminated by an empty cell, missing storage, or the board edge. -/
def sandwichRun (b : Board) (piece : Piece) (dx dy : Int) :
    Nat → Int → Int → Nat → Option Nat
  | 0, _, _, _ => none
  | fuel + 1, x, y, acc =>
    if InB x y then
      match b[toIdx x y]? with
      | some (some q) =>
        if q = piece then some acc
        else sandwichRun b piece dx dy fuel (x + dx) (y + dy) (acc + 1)
      | _ => none
    else none

/-- Follows the spec words for claim C1: total number of captured opponent
pieces under the sandwich rule, a direction contributing its closed run
length and 0 otherwise. -/
def sandwichFlips (b : Board) (x y : Nat) (piece : Piece) : Nat :=
  DIRECTIONS.foldl (fun acc d =>
    acc + (sandwichRun b piece d.1 d.2 FUEL
      ((x : Int) + d.1) ((y : Int) + d.2) 0).getD 0) 0

/-- State-passing form of one call of `Board::flips`: the receiver is borrowed
immutably (`&self`), and the closure passed to `walk` captures only the local
`count`, so the call hands the receiver back unchanged next to its value. -/
def Board.flipsCall (b : Board) (x y : Nat) (piece : Piece) :
    Board × Option Nat :=
  (b, Board.flips b x y piece)

/-- Repeated calls of `Board::flips`, each one receiving the board left behind
by the previous call; returns the final board and the returned counts. -/
def Board.flipsCalls (x y : Nat) (piece : Piece) :
    Nat → Board → Board × List (Option Nat)
  | 0, b => (b, [])
  | n + 1, b =>
    ((Board.flipsCalls x y piece n (Board.flipsCall b x y piece).1).1,
      (Board.flipsCall b x y piece).2 ::
        (Board.flipsCalls x y piece n (Board.flipsCall b x y piece).1).2)

/-- Apply the writes of a mutating walk: set each listed index to `piece`,
in order. -/
def writeAll (b : Board) (L : List Nat) (piece : Piece) : Board :=
  L.foldl (fun acc i => acc.set i (some piece)) b

/-- Remaining-step bound for one coordinate of a directional walk. -/
def mcomp (d v : Int) : Nat :=
  if 0 < d then (8 - v).toNat else if d < 0 then (v + 1).toNat else 0

/-- Remaining-step bound for a directional walk at position `(x, y)`. -/
def steps (dx dy x y : Int) : Nat := mcomp dx x + mcomp dy y

/-- A board that is empty except for White at (1,0) and Black at (3,0): the
opponent run right of (0,0) is terminated by the empty cell (2,0). -/
def gappedBoard : Board :=
  ((List.replicate (Board.width * Board.width) none).set 1 (some Piece.White)).set
    3 (some Piece.Black)

/-! Basic facts about directions, indices and the loop measure. -/

/-- Every direction has components in `{-1, 0, 1}` and is not `(0, 0)`. -/
lemma dir_bounds : ∀ d ∈ DIRECTIONS,
    (d.1 = -1 ∨ d.1 = 0 ∨ d.1 = 1) ∧ (d.2 = -1 ∨ d.2 = 0 ∨ d.2 = 1) ∧
      ¬(d.1 = 0 ∧ d.2 = 0) := by decide

lemma DIRECTIONS_nodup : DIRECTIONS.Nodup := by decide

lemma toIdx_lt {x y : Int} (h : InB x y) : toIdx x y < 64 := by
  obtain ⟨h1, h2, h3, h4⟩ := h
  simp only [toIdx, Board.width]
  simp only [WIDTH] at h3 h4
  omega

lemma toIdx_inj {x y x' y' : Int} (h : InB x y) (h' : InB x' y')
    (he : toIdx x y = toIdx x' y') : x = x' ∧ y = y' := by
  obtain ⟨h1, h2, h3, h4⟩ := h
  obtain ⟨h1', h2', h3', h4'⟩ := h'
  simp only [toIdx, Board.width] at he
  simp only [WIDTH] at h3 h4 h3' h4'
  omega

lemma steps_decrease {dx dy x y : Int}
    (hd : (dx = -1 ∨ dx = 0 ∨ dx = 1) ∧ (dy = -1 ∨ dy = 0 ∨ dy = 1) ∧
      ¬(dx = 0 ∧ dy = 0))
    (hin : InB x y) : steps dx dy (x + dx) (y + dy) < steps dx dy x y := by
  obtain ⟨hin1, hin2, hin3, hin4⟩ := hin
  simp only [WIDTH] at hin3 hin4
  obtain ⟨h1, h2, h3⟩ := hd
  rcases h1 with h1 | h1 | h1 <;> rcases h2 with h2 | h2 | h2 <;>
    subst h1 <;> subst h2 <;>
    simp only [steps, mcomp] <;> norm_num <;> omega

lemma steps_entry {dx dy x y : Int}
    (hd : (dx = -1 ∨ dx = 0 ∨ dx = 1) ∧ (dy = -1 ∨ dy = 0 ∨ dy = 1) ∧
      ¬(dx = 0 ∧ dy = 0))
    (hin : InB x y) : steps dx dy (x + dx) (y + dy) < FUEL := by
  obtain ⟨hin1, hin2, hin3, hin4⟩ := hin
  simp only [WIDTH] at hin3 hin4
  obtain ⟨h1, h2, h3⟩ := hd
  rcases h1 with h1 | h1 | h1 <;> rcases h2 with h2 | h2 | h2 <;>
    subst h1 <;> subst h2 <;>
    simp only [steps, mcomp, FUEL] <;> norm_num <;> omega

/-! Totality: with a 64-cell board and an in-bounds starting cell, none of the
directional loops runs out of fuel or indexes out of range. -/

lemma onAux_isSome {b : Board} {piece : Piece} {dx dy : Int}
    (hd : (dx = -1 ∨ dx = 0 ∨ dx = 1) ∧ (dy = -1 ∨ dy = 0 ∨ dy = 1) ∧
      ¬(dx = 0 ∧ dy = 0))
    (hb : b.length = 64) :
    ∀ (fuel : Nat) (x y : Int), steps dx dy x y < fuel →
      (Board.onAux b piece dx dy fuel x y).isSome := by
  intro fuel
  induction fuel with
  | zero => intro x y h; omega
  | succ n ih =>
    intro x y h
    unfold Board.onAux
    by_cases hin : InB x y
    · rw [if_pos hin]
      have hlt : toIdx x y < b.length := by rw [hb]; exact toIdx_lt hin
      obtain ⟨cell, hcell⟩ : ∃ c, b[toIdx x y]? = some c :=
        ⟨b[toIdx x y], List.getElem?_eq_getElem hlt⟩
      rw [hcell]
      show (if cell = some piece then some true
        else Board.onAux b piece dx dy n (x + dx) (y + dy)).isSome
      split
      · rfl
      · refine ih (x + dx) (y + dy) ?_
        have := steps_decrease hd hin
        omega
    · rw [if_neg hin]; rfl

lemma walkAux_isSome {b : Board} {piece : Piece} {dx dy : Int}
    (hd : (dx = -1 ∨ dx = 0 ∨ dx = 1) ∧ (dy = -1 ∨ dy = 0 ∨ dy = 1) ∧
      ¬(dx = 0 ∧ dy = 0))
    (hb : b.length = 64) :
    ∀ (fuel : Nat) (x y : Int), steps dx dy x y < fuel →
      (Board.walkAux b piece dx dy fuel x y).isSome := by
  intro fuel
  induction fuel with
  | zero => intro x y h; omega
  | succ n ih =>
    intro x y h
    unfold Board.walkAux
    by_cases hin : InB x y
    · rw [if_pos hin]
      have hlt : toIdx x y < b.length := by rw [hb]; exact toIdx_lt hin
      obtain ⟨cell, hcell⟩ : ∃ c, b[toIdx x y]? = some c :=
        ⟨b[toIdx x y], List.getElem?_eq_getElem hlt⟩
      rw [hcell]
      show (if cell = some (Piece.not piece) then
        match Board.walkAux b piece dx dy n (x + dx) (y + dy) with
        | none => none
        | some rest => some (toIdx x y :: rest)
        else some []).isSome
      split
      · have hrec := ih (x + dx) (y + dy) (by have := steps_decrease hd hin; omega)
        obtain ⟨rest, hrest⟩ := Option.isSome_iff_exists.mp hrec
        rw [hrest]
        rfl
      · rfl
    · rw [if_neg hin]; rfl

lemma walkMutAux_isSome {piece : Piece} {dx dy : Int}
    (hd : (dx = -1 ∨ dx = 0 ∨ dx = 1) ∧ (dy = -1 ∨ dy = 0 ∨ dy = 1) ∧
      ¬(dx = 0 ∧ dy = 0)) :
    ∀ (fuel : Nat) (b : Board) (x y : Int), b.length = 64 →
      steps dx dy x y < fuel →
      (Board.walkMutAux piece dx dy fuel b x y).isSome := by
  intro fuel
  induction fuel with
  | zero => intro b x y _ h; omega
  | succ n ih =>
    intro b x y hb h
    unfold Board.walkMutAux
    by_cases hin : InB x y
    · rw [if_pos hin]
      have hlt : toIdx x y < b.length := by rw [hb]; exact toIdx_lt hin
      obtain ⟨cell, hcell⟩ : ∃ c, b[toIdx x y]? = some c :=
        ⟨b[toIdx x y], List.getElem?_eq_getElem hlt⟩
      rw [hcell]
      show (if cell = some (Piece.not piece) then
        Board.walkMutAux piece dx dy n (b.set (toIdx x y) (some piece))
          (x + dx) (y + dy)
        else some b).isSome
      split
      · refine ih _ (x + dx) (y + dy) ?_ ?_
        · rw [List.length_set]; exact hb
        · have := steps_decrease hd hin
          omega
      · rfl
    · rw [if_neg hin]; rfl

lemma walkMutAux_length {piece : Piece} {dx dy : Int} :
    ∀ (fuel : Nat) (b : Board) (x y : Int) (b' : Board),
      Board.walkMutAux piece dx dy fuel b x y = some b' →
      b'.length = b.length := by
  intro fuel
  induction fuel with
  | zero => intro b x y b' h; exact absurd h (by simp [Board.walkMutAux])
  | succ n ih =>
    intro b x y b' h
    unfold Board.walkMutAux at h
    by_cases hin : InB x y
    · rw [if_pos hin] at h
      cases hcell : b[toIdx x y]? with
      | none => rw [hcell] at h; exact absurd h (by simp)
      | some cell =>
        rw [hcell] at h
        revert h
        show (if cell = some (Piece.not piece) then
          Board.walkMutAux piece dx dy n (b.set (toIdx x y) (some piece))
            (x + dx) (y + dy)
          else some b) = some b' → b'.length = b.length
        split
        · intro h
          have := ih _ (x + dx) (y + dy) b' h
          rw [this, List.length_set]
        · intro h
          cases h
          rfl
    · rw [if_neg hin] at h
      cases h
      rfl

lemma on_isSome {b : Board} {piece : Piece} {x y : Int} {d : Int × Int}
    (hd : d ∈ DIRECTIONS) (hb : b.length = 64) (hin : InB x y) :
    (Board.on b x y d.1 d.2 piece).isSome :=
  onAux_isSome (dir_bounds d hd) hb FUEL (x + d.1) (y + d.2)
    (steps_entry (dir_bounds d hd) hin)

lemma flipsDir_isSome {b : Board} {piece : Piece} {xi yi : Int} {d : Int × Int}
    (hd : d ∈ DIRECTIONS) (hb : b.length = 64) (hin : InB xi yi) :
    (Board.flipsDir b xi yi d piece).isSome := by
  unfold Board.flipsDir
  obtain ⟨v, hv⟩ := Option.isSome_iff_exists.mp (on_isSome hd hb hin)
  rw [hv]
  cases v
  · rfl
  · have hw := @walkAux_isSome b piece d.1 d.2 (dir_bounds d hd) hb FUEL
      (xi + d.1) (yi + d.2) (steps_entry (dir_bounds d hd) hin)
    obtain ⟨L, hL⟩ := Option.isSome_iff_exists.mp hw
    rw [hL]
    rfl

lemma flipDir_isSome {piece : Piece} {xi yi : Int} {d : Int × Int}
    (hd : d ∈ DIRECTIONS) (hin : InB xi yi) :
    ∀ b : Board, b.length = 64 →
      ∃ b', Board.flipDir d piece b xi yi = some b' ∧ b'.length = 64 := by
  intro b hb
  unfold Board.flipDir
  obtain ⟨v, hv⟩ := Option.isSome_iff_exists.mp (on_isSome hd hb hin)
  rw [hv]
  cases v
  · exact ⟨b, rfl, hb⟩
  · have hw := @walkMutAux_isSome piece d.1 d.2 (dir_bounds d hd) FUEL b
      (xi + d.1) (yi + d.2) hb (steps_entry (dir_bounds d hd) hin)
    obtain ⟨b', hb'⟩ := Option.isSome_iff_exists.mp hw
    refine ⟨b', hb', ?_⟩
    rw [walkMutAux_length FUEL b (xi + d.1) (yi + d.2) b' hb', hb]

lemma flips_fold_isSome {b : Board} {piece : Piece} {xi yi : Int}
    (hb : b.length = 64) (hin : InB xi yi) :
    ∀ ds : List (Int × Int), (∀ d ∈ ds, d ∈ DIRECTIONS) → ∀ c : Nat,
      (ds.foldl (fun acc d =>
        match acc, Board.flipsDir b xi yi d piece with
        | some count, some k => some (count + k)
        | _, _ => none) (some c)).isSome := by
  intro ds
  induction ds with
  | nil => intro _ c; rfl
  | cons d rest ih =>
    intro hmem c
    rw [List.foldl_cons]
    obtain ⟨k, hk⟩ := Option.isSome_iff_exists.mp
      (flipsDir_isSome (hmem d (by simp)) hb hin)
    rw [hk]
    exact ih (fun d' hd' => hmem d' (by simp [hd'])) (c + k)

lemma flip_fold_ex {piece : Piece} {xi yi : Int} (hin : InB xi yi) :
    ∀ ds : List (Int × Int), (∀ d ∈ ds, d ∈ DIRECTIONS) →
      ∀ bc : Board, bc.length = 64 →
      ∃ b', ds.foldl (fun acc d =>
          match acc with
          | none => none
          | some b' => Board.flipDir d piece b' xi yi) (some bc) = some b' ∧
        b'.length = 64 := by
  intro ds
  induction ds with
  | nil => intro _ bc hbc; exact ⟨bc, rfl, hbc⟩
  | cons d rest ih =>
    intro hmem bc hbc
    rw [List.foldl_cons]
    obtain ⟨b1, hb1, hb1len⟩ :=
      @flipDir_isSome piece xi yi d (hmem d (by simp)) hin bc hbc
    obtain ⟨b', hfold, hlen⟩ := ih (fun d' hd' => hmem d' (by simp [hd'])) b1 hb1len
    rw [← hb1] at hfold
    exact ⟨b', hfold, hlen⟩

lemma neighborCells_mem {x y : Nat} {p : Nat × Nat}
    (hp : p ∈ Board.neighborCells x y) : p.1 < 8 ∧ p.2 < 8 := by
  unfold Board.neighborCells at hp
  rw [List.mem_filter] at hp
  have := hp.2
  simpa using this

lemma anyPopulated_isSome {b : Board} (hb : b.length = 64) :
    ∀ ps : List (Nat × Nat), (∀ p ∈ ps, p.1 < 8 ∧ p.2 < 8) →
      (Board.anyPopulated b ps).isSome := by
  intro ps
  induction ps with
  | nil => intro _; rfl
  | cons p rest ih =>
    intro h
    unfold Board.anyPopulated
    have hidx : p.1 + p.2 * Board.width < b.length := by
      have := h p (by simp)
      rw [hb]
      simp only [Board.width]
      omega
    obtain ⟨cell, hcell⟩ : ∃ c, Board.read b p.1 p.2 = some c :=
      ⟨_, List.getElem?_eq_getElem hidx⟩
    rw [hcell]
    show (if cell.isSome then some true else Board.anyPopulated b rest).isSome
    split
    · rfl
    · exact ih (fun q hq => h q (by simp [hq]))

lemma anyPopulated_ex {b : Board} (hb : b.length = 64) :
    ∀ ps : List (Nat × Nat), (∀ p ∈ ps, p.1 < 8 ∧ p.2 < 8) →
      ∃ r, Board.anyPopulated b ps = some r ∧
        (r = true ↔ ∃ p ∈ ps, ∃ q : Piece,
          b[p.1 + p.2 * Board.width]? = some (some q)) := by
  intro ps
  induction ps with
  | nil =>
    intro _
    exact ⟨false, rfl, by simp⟩
  | cons p rest ih =>
    intro h
    have hidx : p.1 + p.2 * Board.width < b.length := by
      have := h p (by simp)
      rw [hb]
      simp only [Board.width]
      omega
    obtain ⟨cell, hcell⟩ : ∃ c, b[p.1 + p.2 * Board.width]? = some c :=
      ⟨_, List.getElem?_eq_getElem hidx⟩
    unfold Board.anyPopulated Board.read
    rw [hcell]
    cases cell with
    | none =>
      obtain ⟨r, hr, hiff⟩ := ih (fun q hq => h q (by simp [hq]))
      refine ⟨r, ?_, ?_⟩
      · show (if (none : Option Piece).isSome then some true
          else Board.anyPopulated b rest) = some r
        simpa using hr
      · rw [hiff]
        constructor
        · rintro ⟨q, hq, w, hw⟩
          exact ⟨q, by simp [hq], w, hw⟩
        · rintro ⟨q, hq, w, hw⟩
          rcases List.mem_cons.mp hq with hq' | hq'
          · subst hq'
            rw [hcell] at hw
            cases hw
          · exact ⟨q, hq', w, hw⟩
    | some w =>
      refine ⟨true, rfl, ?_⟩
      simp only [true_iff]
      exact ⟨p, by simp, w, hcell⟩

lemma mem_neighborCells {x y : Nat} {p : Nat × Nat} :
    p ∈ Board.neighborCells x y ↔
      ∃ d ∈ DIRECTIONS, InB ((x : Int) + d.1) ((y : Int) + d.2) ∧
        p = (((x : Int) + d.1).toNat, ((y : Int) + d.2).toNat) := by
  unfold Board.neighborCells
  rw [List.mem_filter]
  constructor
  · rintro ⟨hmem, hlt⟩
    obtain ⟨d, hd, rfl⟩ := List.mem_map.mp hmem
    rw [List.mem_filter] at hd
    obtain ⟨hd1, hd2⟩ := hd
    simp only [decide_eq_true_eq] at hd2 hlt
    refine ⟨d, hd1, ⟨hd2.1, hd2.2, ?_, ?_⟩, rfl⟩ <;>
      · simp only [WIDTH]
        simp only [Board.width] at hlt
        omega
  · rintro ⟨d, hd, hin, rfl⟩
    obtain ⟨h1, h2, h3, h4⟩ := hin
    simp only [WIDTH] at h3 h4
    refine ⟨List.mem_map.mpr ⟨d, List.mem_filter.mpr ⟨hd, ?_⟩, rfl⟩, ?_⟩
    · simp only [decide_eq_true_eq]
      exact ⟨h1, h2⟩
    · simp only [decide_eq_true_eq, Board.width]
      omega

lemma adjacent_ok {b : Board} (hb : b.length = 64) {x y : Nat}
    (hx : x < 8) (hy : y < 8) :
    ∃ v, Board.adjacent b x y = some (Except.ok v) := by
  unfold Board.adjacent
  rw [if_pos ⟨hx, hy⟩]
  obtain ⟨r, hr⟩ := Option.isSome_iff_exists.mp
    (anyPopulated_isSome hb _ (fun p hp => neighborCells_mem hp))
  rw [hr]
  exact ⟨r, rfl⟩

lemma Piece.not_ne (p : Piece) : Piece.not p ≠ p := by cases p <;> simp [Piece.not]

lemma writeAll_cons (b : Board) (i : Nat) (L : List Nat) (piece : Piece) :
    writeAll b (i :: L) piece = writeAll (b.set i (some piece)) L piece := rfl

lemma writeAll_length (piece : Piece) :
    ∀ (L : List Nat) (b : Board), (writeAll b L piece).length = b.length := by
  intro L
  induction L with
  | nil => intro b; rfl
  | cons i L ih =>
    intro b
    rw [writeAll_cons, ih, List.length_set]

lemma writeAll_getElem? (piece : Piece) :
    ∀ (L : List Nat) (b : Board), (∀ i ∈ L, i < b.length) → ∀ j : Nat,
      (writeAll b L piece)[j]? =
        if j ∈ L then some (some piece) else b[j]? := by
  intro L
  induction L with
  | nil =>
    intro b _ j
    simp [writeAll]
  | cons i L ih =>
    intro b hlen j
    rw [writeAll_cons, ih (b.set i (some piece))
      (fun i' hi' => by rw [List.length_set]; exact hlen i' (by simp [hi']))]
    by_cases hjL : j ∈ L
    · rw [if_pos hjL, if_pos (by simp [hjL])]
    · rw [if_neg hjL]
      by_cases hji : j = i
      · subst hji
        rw [if_pos (by simp), List.getElem?_set_eq_of_lt _ (hlen j (by simp))]
      · rw [List.getElem?_set_ne (fun h => hji h.symm),
          if_neg (by simp [hjL, hji])]

lemma shift_pos (v dv : Int) (j : Nat) :
    v + dv + (j : Int) * dv = v + ((j + 1 : Nat) : Int) * dv := by
  push_cast
  ring

lemma idx_ne_shift {dx dy x y : Int}
    (hd : (dx = -1 ∨ dx = 0 ∨ dx = 1) ∧ (dy = -1 ∨ dy = 0 ∨ dy = 1) ∧
      ¬(dx = 0 ∧ dy = 0))
    (hin : InB x y) (j : Nat)
    (hj : InB (x + dx + (j : Int) * dx) (y + dy + (j : Int) * dy)) :
    toIdx x y ≠ toIdx (x + dx + (j : Int) * dx) (y + dy + (j : Int) * dy) := by
  intro he
  rw [shift_pos x dx j, shift_pos y dy j] at hj he
  obtain ⟨e1, e2⟩ := toIdx_inj hin hj he
  obtain ⟨h1, h2, h3⟩ := hd
  rcases h1 with h1 | h1 | h1 <;> rcases h2 with h2 | h2 | h2 <;>
    subst h1 <;> subst h2 <;> omega

lemma onAux_agree {b1 b2 : Board} {piece : Piece} {dx dy : Int} :
    ∀ (fuel : Nat) (x y : Int),
      (∀ j : Nat, InB (x + (j : Int) * dx) (y + (j : Int) * dy) →
        b2[toIdx (x + (j : Int) * dx) (y + (j : Int) * dy)]? =
          b1[toIdx (x + (j : Int) * dx) (y + (j : Int) * dy)]?) →
      Board.onAux b2 piece dx dy fuel x y =
        Board.onAux b1 piece dx dy fuel x y := by
  intro fuel
  induction fuel with
  | zero => intro x y _; rfl
  | succ n ih =>
    intro x y h
    unfold Board.onAux
    by_cases hin : InB x y
    · rw [if_pos hin, if_pos hin]
      have h0 := h 0 (by simpa using hin)
      simp only [Nat.cast_zero, zero_mul, add_zero] at h0
      rw [h0]
      cases b1[toIdx x y]? with
      | none => rfl
      | some cell =>
        dsimp only
        split
        · rfl
        · refine ih (x + dx) (y + dy) (fun j hj => ?_)
          rw [shift_pos x dx j, shift_pos y dy j] at hj ⊢
          exact h (j + 1) hj
    · rw [if_neg hin, if_neg hin]

lemma walkAux_agree {b1 b2 : Board} {piece : Piece} {dx dy : Int} :
    ∀ (fuel : Nat) (x y : Int),
      (∀ j : Nat, InB (x + (j : Int) * dx) (y + (j : Int) * dy) →
        b2[toIdx (x + (j : Int) * dx) (y + (j : Int) * dy)]? =
          b1[toIdx (x + (j : Int) * dx) (y + (j : Int) * dy)]?) →
      Board.walkAux b2 piece dx dy fuel x y =
        Board.walkAux b1 piece dx dy fuel x y := by
  intro fuel
  induction fuel with
  | zero => intro x y _; rfl
  | succ n ih =>
    intro x y h
    unfold Board.walkAux
    by_cases hin : InB x y
    · rw [if_pos hin, if_pos hin]
      have h0 := h 0 (by simpa using hin)
      simp only [Nat.cast_zero, zero_mul, add_zero] at h0
      rw [h0]
      cases b1[toIdx x y]? with
      | none => rfl
      | some cell =>
        dsimp only
        split
        · rw [ih (x + dx) (y + dy) (fun j hj => by
            rw [shift_pos x dx j, shift_pos y dy j] at hj ⊢
            exact h (j + 1) hj)]
        · rfl
    · rw [if_neg hin, if_neg hin]

lemma walkAux_mem {b : Board} {piece : Piece} {dx dy : Int} :
    ∀ (fuel : Nat) (x y : Int) (L : List Nat),
      Board.walkAux b piece dx dy fuel x y = some L →
      ∀ i ∈ L, b[i]? = some (some (Piece.not piece)) ∧
        ∃ j : Nat, InB (x + (j : Int) * dx) (y + (j : Int) * dy) ∧
          i = toIdx (x + (j : Int) * dx) (y + (j : Int) * dy) := by
  intro fuel
  induction fuel with
  | zero => intro x y L h; simp [Board.walkAux] at h
  | succ n ih =>
    intro x y L h
    unfold Board.walkAux at h
    by_cases hin : InB x y
    · rw [if_pos hin] at h
      cases hread : b[toIdx x y]? with
      | none => rw [hread] at h; cases h
      | some cell =>
        rw [hread] at h
        dsimp only at h
        by_cases hcell : cell = some (Piece.not piece)
        · rw [if_pos hcell] at h
          cases hrest : Board.walkAux b piece dx dy n (x + dx) (y + dy) with
          | none => rw [hrest] at h; cases h
          | some rest =>
            rw [hrest] at h
            cases h
            intro i hi
            rcases List.mem_cons.mp hi with hi' | hi'
            · subst hi'
              subst hcell
              refine ⟨hread, 0, by simpa using hin, by simp⟩
            · obtain ⟨hcellval, j, hjin, hjeq⟩ := ih (x + dx) (y + dy) rest hrest i hi'
              rw [shift_pos x dx j, shift_pos y dy j] at hjin hjeq
              exact ⟨hcellval, j + 1, hjin, hjeq⟩
        · rw [if_neg hcell] at h
          cases h
          intro i hi
          cases hi
    · rw [if_neg hin] at h
      cases h
      intro i hi
      cases hi

lemma walkAux_nodup {b : Board} {piece : Piece} {dx dy : Int}
    (hd : (dx = -1 ∨ dx = 0 ∨ dx = 1) ∧ (dy = -1 ∨ dy = 0 ∨ dy = 1) ∧
      ¬(dx = 0 ∧ dy = 0)) :
    ∀ (fuel : Nat) (x y : Int) (L : List Nat),
      Board.walkAux b piece dx dy fuel x y = some L → L.Nodup := by
  intro fuel
  induction fuel with
  | zero => intro x y L h; simp [Board.walkAux] at h
  | succ n ih =>
    intro x y L h
    unfold Board.walkAux at h
    by_cases hin : InB x y
    · rw [if_pos hin] at h
      cases hread : b[toIdx x y]? with
      | none => rw [hread] at h; cases h
      | some cell =>
        rw [hread] at h
        dsimp only at h
        by_cases hcell : cell = some (Piece.not piece)
        · rw [if_pos hcell] at h
          cases hrest : Board.walkAux b piece dx dy n (x + dx) (y + dy) with
          | none => rw [hrest] at h; cases h
          | some rest =>
            rw [hrest] at h
            cases h
            refine List.nodup_cons.mpr ⟨?_, ih (x + dx) (y + dy) rest hrest⟩
            intro hmem
            obtain ⟨_, j, hjin, hjeq⟩ :=
              walkAux_mem n (x + dx) (y + dy) rest hrest (toIdx x y) hmem
            exact idx_ne_shift hd hin j hjin hjeq
        · rw [if_neg hcell] at h
          cases h
          exact List.nodup_nil
    · rw [if_neg hin] at h
      cases h
      exact List.nodup_nil

lemma walkMutAux_eq_writeAll {piece : Piece} {dx dy : Int}
    (hd : (dx = -1 ∨ dx = 0 ∨ dx = 1) ∧ (dy = -1 ∨ dy = 0 ∨ dy = 1) ∧
      ¬(dx = 0 ∧ dy = 0)) :
    ∀ (fuel : Nat) (b : Board) (x y : Int) (L : List Nat),
      Board.walkAux b piece dx dy fuel x y = some L →
      Board.walkMutAux piece dx dy fuel b x y = some (writeAll b L piece) := by
  intro fuel
  induction fuel with
  | zero => intro b x y L h; simp [Board.walkAux] at h
  | succ n ih =>
    intro b x y L h
    unfold Board.walkAux at h
    unfold Board.walkMutAux
    by_cases hin : InB x y
    · rw [if_pos hin] at h ⊢
      cases hread : b[toIdx x y]? with
      | none => rw [hread] at h; cases h
      | some cell =>
        rw [hread] at h
        dsimp only at h ⊢
        by_cases hcell : cell = some (Piece.not piece)
        · rw [if_pos hcell] at h
          cases hrest : Board.walkAux b piece dx dy n (x + dx) (y + dy) with
          | none => rw [hrest] at h; cases h
          | some rest =>
            rw [hrest] at h
            cases h
            show (if cell = some (Piece.not piece) then
              Board.walkMutAux piece dx dy n (b.set (toIdx x y) (some piece))
                (x + dx) (y + dy)
              else some b) = some (writeAll b (toIdx x y :: rest) piece)
            rw [if_pos hcell, writeAll_cons]
            refine ih (b.set (toIdx x y) (some piece)) (x + dx) (y + dy) rest ?_
            rw [walkAux_agree n (x + dx) (y + dy) (fun j hj =>
              List.getElem?_set_ne (idx_ne_shift hd hin j hj))]
            exact hrest
        · rw [if_neg hcell] at h
          cases h
          show (if cell = some (Piece.not piece) then
            Board.walkMutAux piece dx dy n (b.set (toIdx x y) (some piece))
              (x + dx) (y + dy)
            else some b) = some (writeAll b [] piece)
          rw [if_neg hcell]
          rfl
    · rw [if_neg hin] at h ⊢
      cases h
      rfl

lemma ray_disjoint {xi yi : Int} {d d' : Int × Int}
    (hd : d ∈ DIRECTIONS) (hd' : d' ∈ DIRECTIONS) (hne : d ≠ d')
    {k k' : Nat} (hk : 1 ≤ k) (hk' : 1 ≤ k')
    (hin : InB (xi + (k : Int) * d.1) (yi + (k : Int) * d.2))
    (hin' : InB (xi + (k' : Int) * d'.1) (yi + (k' : Int) * d'.2)) :
    toIdx (xi + (k : Int) * d.1) (yi + (k : Int) * d.2) ≠
      toIdx (xi + (k' : Int) * d'.1) (yi + (k' : Int) * d'.2) := by
  intro he
  obtain ⟨e1, e2⟩ := toIdx_inj hin hin' he
  have f1 : (k : Int) * d.1 = (k' : Int) * d'.1 := by linarith
  have f2 : (k : Int) * d.2 = (k' : Int) * d'.2 := by linarith
  clear hin hin' he e1 e2
  simp only [DIRECTIONS, List.mem_cons, List.not_mem_nil, or_false] at hd hd'
  rcases hd with h | h | h | h | h | h | h | h <;>
    rcases hd' with h' | h' | h' | h' | h' | h' | h' | h' <;>
      subst h <;> subst h' <;>
        first
          | exact hne rfl
          | (norm_num at f1 f2; omega)

lemma fold_spec {b : Board} {piece : Piece} {xi yi : Int}
    (hb : b.length = 64) (hin : InB xi yi) :
    ∀ ds : List (Int × Int), (∀ d ∈ ds, d ∈ DIRECTIONS) → ds.Nodup →
      ∀ bc : Board, bc.length = 64 →
      (∀ d ∈ ds, ∀ k : Nat, 1 ≤ k →
        InB (xi + (k : Int) * d.1) (yi + (k : Int) * d.2) →
        bc[toIdx (xi + (k : Int) * d.1) (yi + (k : Int) * d.2)]? =
          b[toIdx (xi + (k : Int) * d.1) (yi + (k : Int) * d.2)]?) →
      ∃ V : List Nat,
        ds.foldl (fun acc d =>
          match acc with
          | none => none
          | some b' => Board.flipDir d piece b' xi yi) (some bc) =
            some (writeAll bc V piece) ∧
        (∀ c : Nat, ds.foldl (fun acc d =>
          match acc, Board.flipsDir b xi yi d piece with
          | some count, some k => some (count + k)
          | _, _ => none) (some c) = some (c + V.length)) ∧
        V.Nodup ∧
        (∀ i ∈ V, b[i]? = some (some (Piece.not piece)) ∧
          ∃ d ∈ ds, ∃ k : Nat, 1 ≤ k ∧
            InB (xi + (k : Int) * d.1) (yi + (k : Int) * d.2) ∧
            i = toIdx (xi + (k : Int) * d.1) (yi + (k : Int) * d.2)) := by
  intro ds
  induction ds with
  | nil =>
    intro _ _ bc hbc _
    exact ⟨[], rfl, fun c => rfl, List.nodup_nil,
      fun i hi => absurd hi (List.not_mem_nil i)⟩
  | cons d rest ih =>
    intro hmem hnodup bc hbc hagree
    have hdD : d ∈ DIRECTIONS := hmem d (by simp)
    have hdb := dir_bounds d hdD
    obtain ⟨onv, honv⟩ := Option.isSome_iff_exists.mp (on_isSome hdD hb hin)
    obtain ⟨L, hL⟩ := Option.isSome_iff_exists.mp
      (@walkAux_isSome b piece d.1 d.2 hdb hb FUEL (xi + d.1) (yi + d.2)
        (steps_entry hdb hin))
    have hLray : ∀ i ∈ L, b[i]? = some (some (Piece.not piece)) ∧
        ∃ k : Nat, 1 ≤ k ∧ InB (xi + (k : Int) * d.1) (yi + (k : Int) * d.2) ∧
          i = toIdx (xi + (k : Int) * d.1) (yi + (k : Int) * d.2) := by
      intro i hi
      obtain ⟨hcell, j, hjin, hjeq⟩ :=
        walkAux_mem FUEL (xi + d.1) (yi + d.2) L hL i hi
      rw [shift_pos xi d.1 j, shift_pos yi d.2 j] at hjin hjeq
      exact ⟨hcell, j + 1, by omega, hjin, hjeq⟩
    have hLnodup : L.Nodup := walkAux_nodup hdb FUEL (xi + d.1) (yi + d.2) L hL
    have hagree_d : ∀ j : Nat,
        InB (xi + d.1 + (j : Int) * d.1) (yi + d.2 + (j : Int) * d.2) →
        bc[toIdx (xi + d.1 + (j : Int) * d.1) (yi + d.2 + (j : Int) * d.2)]? =
          b[toIdx (xi + d.1 + (j : Int) * d.1)
              (yi + d.2 + (j : Int) * d.2)]? := by
      intro j hj
      rw [shift_pos xi d.1 j, shift_pos yi d.2 j] at hj ⊢
      exact hagree d (by simp) (j + 1) (by omega) hj
    have hon_bc : Board.on bc xi yi d.1 d.2 piece = some onv := by
      unfold Board.on at honv ⊢
      rw [onAux_agree FUEL (xi + d.1) (yi + d.2) hagree_d]
      exact honv
    have hL_bc : Board.walkAux bc piece d.1 d.2 FUEL (xi + d.1) (yi + d.2) =
        some L := by
      rw [walkAux_agree FUEL (xi + d.1) (yi + d.2) hagree_d]
      exact hL
    have hdne : ∀ d' ∈ rest, d ≠ d' := by
      intro d' hd' he
      exact (List.nodup_cons.mp hnodup).1 (he ▸ hd')
    cases onv with
    | true =>
      have hfd : Board.flipsDir b xi yi d piece = some L.length := by
        unfold Board.flipsDir
        rw [honv, hL]
      have hFlipStep : Board.flipDir d piece bc xi yi =
          some (writeAll bc L piece) := by
        unfold Board.flipDir
        rw [hon_bc]
        exact walkMutAux_eq_writeAll hdb FUEL bc (xi + d.1) (yi + d.2) L hL_bc
      have hLlt : ∀ i ∈ L, i < bc.length := by
        intro i hi
        obtain ⟨_, k, _, hkin, hkeq⟩ := hLray i hi
        rw [hbc, hkeq]
        exact toIdx_lt hkin
      have hagree' : ∀ d' ∈ rest, ∀ k : Nat, 1 ≤ k →
          InB (xi + (k : Int) * d'.1) (yi + (k : Int) * d'.2) →
          (writeAll bc L piece)[toIdx (xi + (k : Int) * d'.1)
              (yi + (k : Int) * d'.2)]? =
            b[toIdx (xi + (k : Int) * d'.1) (yi + (k : Int) * d'.2)]? := by
        intro d' hd' k hk hkin
        rw [writeAll_getElem? piece L bc hLlt]
        rw [if_neg ?notmem]
        · exact hagree d' (by simp [hd']) k hk hkin
        case notmem =>
          intro hiL
          obtain ⟨_, k0, hk0, hk0in, hk0eq⟩ := hLray _ hiL
          exact ray_disjoint hdD (hmem d' (by simp [hd'])) (hdne d' hd')
            hk0 hk hk0in hkin hk0eq.symm
      obtain ⟨V', hfold', hcount', hnodup', hmem'⟩ :=
        ih (fun d' h => hmem d' (by simp [h])) (List.nodup_cons.mp hnodup).2
          (writeAll bc L piece) (by rw [writeAll_length]; exact hbc) hagree'
      refine ⟨L ++ V', ?_, ?_, ?_, ?_⟩
      · rw [List.foldl_cons]
        rw [← hFlipStep] at hfold'
        rw [show writeAll bc (L ++ V') piece =
            writeAll (writeAll bc L piece) V' piece from by
          simp [writeAll, List.foldl_append]]
        exact hfold'
      · intro c
        rw [List.foldl_cons, hfd, List.length_append, ← Nat.add_assoc]
        exact hcount' (c + L.length)
      · rw [List.nodup_append]
        refine ⟨hLnodup, hnodup', ?_⟩
        intro i hiL hiV'
        obtain ⟨_, k0, hk0, hk0in, hk0eq⟩ := hLray i hiL
        obtain ⟨_, d', hd', k', hk', hk'in, hk'eq⟩ := hmem' i hiV'
        exact ray_disjoint hdD (hmem d' (by simp [hd'])) (hdne d' hd')
          hk0 hk' hk0in hk'in (hk0eq ▸ hk'eq)
      · intro i hi
        rcases List.mem_append.mp hi with hi' | hi'
        · obtain ⟨hcell, k, hk, hkin, hkeq⟩ := hLray i hi'
          exact ⟨hcell, d, by simp, k, hk, hkin, hkeq⟩
        · obtain ⟨hcell, d', hd', k', hk', hk'in, hk'eq⟩ := hmem' i hi'
          exact ⟨hcell, d', by simp [hd'], k', hk', hk'in, hk'eq⟩
    | false =>
      have hfd0 : Board.flipsDir b xi yi d piece = some 0 := by
        unfold Board.flipsDir
        rw [honv]
      have hFlipStep0 : Board.flipDir d piece bc xi yi = some bc := by
        unfold Board.flipDir
        rw [hon_bc]
      obtain ⟨V', hfold', hcount', hnodup', hmem'⟩ :=
        ih (fun d' h => hmem d' (by simp [h])) (List.nodup_cons.mp hnodup).2
          bc hbc (fun d' h k hk hkin => hagree d' (by simp [h]) k hk hkin)
      refine ⟨V', ?_, ?_, hnodup', ?_⟩
      · rw [List.foldl_cons]
        rw [← hFlipStep0] at hfold'
        exact hfold'
      · intro c
        rw [List.foldl_cons, hfd0]
        exact hcount' c
      · intro i hi
        obtain ⟨hcell, d', hd', k', hk', hk'in, hk'eq⟩ := hmem' i hi
        exact ⟨hcell, d', by simp [hd'], k', hk', hk'in, hk'eq⟩

lemma origin_not_ray {xi yi : Int} {d : Int × Int} (hd : d ∈ DIRECTIONS)
    (hin : InB xi yi) {k : Nat} (hk : 1 ≤ k)
    (hkin : InB (xi + (k : Int) * d.1) (yi + (k : Int) * d.2)) :
    toIdx xi yi ≠ toIdx (xi + (k : Int) * d.1) (yi + (k : Int) * d.2) := by
  intro he
  obtain ⟨e1, e2⟩ := toIdx_inj hin hkin he
  simp only [DIRECTIONS, List.mem_cons, List.not_mem_nil, or_false] at hd
  rcases hd with h | h | h | h | h | h | h | h <;> subst h <;>
    (norm_num at e1 e2; omega)

lemma toIdx_natCast (x y : Nat) : toIdx (x : Int) (y : Int) = x + y * 8 := by
  simp only [toIdx, Board.width]
  omega

lemma flipDir_length {d : Int × Int} {piece : Piece} {b : Board} {xi yi : Int}
    {b' : Board} (h : Board.flipDir d piece b xi yi = some b') :
    b'.length = b.length := by
  unfold Board.flipDir at h
  cases hon : Board.on b xi yi d.1 d.2 piece with
  | none => rw [hon] at h; cases h
  | some v =>
    rw [hon] at h
    cases v
    · cases h; rfl
    · exact walkMutAux_length FUEL b (xi + d.1) (yi + d.2) b' h

lemma flip_foldl_none {piece : Piece} {xi yi : Int} :
    ∀ ds : List (Int × Int),
      ds.foldl (fun acc d =>
        match acc with
        | none => none
        | some b' => Board.flipDir d piece b' xi yi) none = none := by
  intro ds
  induction ds with
  | nil => rfl
  | cons d rest ih => exact ih

lemma flip_foldl_length {piece : Piece} {xi yi : Int} :
    ∀ (ds : List (Int × Int)) (bc b' : Board),
      ds.foldl (fun acc d =>
        match acc with
        | none => none
        | some b'' => Board.flipDir d piece b'' xi yi) (some bc) = some b' →
      b'.length = bc.length := by
  intro ds
  induction ds with
  | nil => intro bc b' h; cases h; rfl
  | cons d rest ih =>
    intro bc b' h
    rw [List.foldl_cons] at h
    cases hd1 : Board.flipDir d piece bc xi yi with
    | none =>
      rw [show (match some bc with
        | none => none
        | some b'' => Board.flipDir d piece b'' xi yi) =
          Board.flipDir d piece bc xi yi from rfl, hd1, flip_foldl_none rest] at h
      cases h
    | some b1 =>
      rw [show (match some bc with
        | none => none
        | some b'' => Board.flipDir d piece b'' xi yi) =
          Board.flipDir d piece bc xi yi from rfl, hd1] at h
      rw [ih b1 b' h, flipDir_length hd1]

/-! Claim theorems: the two-valued piece algebra, the starting layout, and
the gapped-run behavior of `Board::on`. -/

/-- C9: the opponent operation is total over `{Black, White}`, swaps the two
colors, and is self-inverse. -/
theorem C9_opponent_involutive :
    Piece.not Piece.Black = Piece.White ∧ Piece.not Piece.White = Piece.Black ∧
      ∀ p : Piece, Piece.not (Piece.not p) = p := by
  refine ⟨rfl, rfl, fun p => ?_⟩
  cases p <;> rfl

/-- C2: `Board::new()` has 64 cells, White at (3,3) and (4,4), Black at (4,3)
and (3,4), and exactly 4 occupied cells in total (hence the other 60 empty). -/
theorem C2_starting_layout :
    Board.new.length = 64 ∧
      Board.read Board.new 3 3 = some (some Piece.White) ∧
      Board.read Board.new 4 4 = some (some Piece.White) ∧
      Board.read Board.new 4 3 = some (some Piece.Black) ∧
      Board.read Board.new 3 4 = some (some Piece.Black) ∧
      Board.new.countP (fun c => c.isSome) = 4 := by decide

/-- C1: `Board::on` scans past empty cells, so `flips(0, 0, Black)` counts the
opponent run (1,0) although it is terminated by the empty cell (2,0) and not
immediately followed by a Black piece; the sandwich rule stated by the claim
yields 0 captures on this board. -/
theorem C1_gapped_run_counted :
    Board.flips gappedBoard 0 0 Piece.Black = some 1 ∧
      sandwichFlips gappedBoard 0 0 Piece.Black = 0 := by decide

/-- C6: on a 64-cell board, whenever the precondition `x < 8 ∧ y < 8` holds,
`adjacent`, `flips` and `flip` complete without any panic (no `none` result:
the entry assertion holds, the conversions succeed, and every internal index
is within the storage); conversely a coordinate violating the precondition
makes the entry assertion fail. -/
theorem C6_precondition_no_panic (b : Board) (x y : Nat) (piece : Piece)
    (hb : b.length = 64) :
    ((x < 8 ∧ y < 8) →
      (Board.adjacent b x y).isSome ∧ (Board.flips b x y piece).isSome ∧
        (Board.flip b x y piece).isSome) ∧
    (¬(x < 8 ∧ y < 8) →
      Board.adjacent b x y = none ∧ Board.flips b x y piece = none ∧
        Board.flip b x y piece = none) := by
  constructor
  · rintro ⟨hx, hy⟩
    have hin : InB (x : Int) (y : Int) := by
      refine ⟨Int.natCast_nonneg x, Int.natCast_nonneg y, ?_, ?_⟩ <;>
        · simp only [WIDTH]; omega
    refine ⟨?_, ?_, ?_⟩
    · obtain ⟨v, hv⟩ := adjacent_ok hb hx hy
      rw [hv]
      rfl
    · unfold Board.flips
      rw [if_pos ⟨hx, hy⟩]
      exact @flips_fold_isSome b piece x y hb hin DIRECTIONS (fun d hd => hd) 0
    · unfold Board.flip
      rw [if_pos ⟨hx, hy⟩]
      obtain ⟨b', hb', _⟩ :=
        @flip_fold_ex piece x y hin DIRECTIONS (fun d hd => hd) b hb
      rw [hb']
      rfl
  · intro hxy
    refine ⟨?_, ?_, ?_⟩
    · unfold Board.adjacent
      rw [if_neg hxy]
    · unfold Board.flips
      rw [if_neg hxy]
    · unfold Board.flip
      rw [if_neg hxy]

theorem C6_precondition_no_panic_witness :
    ((2 < 8 ∧ 3 < 8) →
      (Board.adjacent Board.new 2 3).isSome ∧
        (Board.flips Board.new 2 3 Piece.Black).isSome ∧
        (Board.flip Board.new 2 3 Piece.Black).isSome) ∧
    (¬(2 < 8 ∧ 3 < 8) →
      Board.adjacent Board.new 2 3 = none ∧
        Board.flips Board.new 2 3 Piece.Black = none ∧
        Board.flip Board.new 2 3 Piece.Black = none) :=
  C6_precondition_no_panic Board.new 2 3 Piece.Black (by decide)

/-- C10: although `adjacent` has result type `Result<bool, PlaceError>`, under
the precondition it always completes with `Ok`. -/
theorem C10_adjacent_never_errors (b : Board) (x y : Nat) (hb : b.length = 64)
    (hx : x < 8) (hy : y < 8) :
    ∃ v, Board.adjacent b x y = some (Except.ok v) :=
  adjacent_ok hb hx hy

theorem C10_adjacent_never_errors_witness :
    ∃ v, Board.adjacent Board.new 0 0 = some (Except.ok v) :=
  C10_adjacent_never_errors Board.new 0 0 (by decide) (by decide) (by decide)

/-- C5: `adjacent(x, y)` is `Ok true` iff one of the 8 compass neighbors,
after discarding those off the grid, is populated by a piece of either color;
on a fresh board `adjacent(0,0)` is false and `adjacent(2,3)` is true. -/
theorem C5_adjacent_characterization :
    (∀ (b : Board) (x y : Nat), b.length = 64 → x < 8 → y < 8 →
      ∃ r, Board.adjacent b x y = some (Except.ok r) ∧
        (r = true ↔ ∃ d ∈ DIRECTIONS,
          InB ((x : Int) + d.1) ((y : Int) + d.2) ∧
          ∃ q : Piece,
            b[toIdx ((x : Int) + d.1) ((y : Int) + d.2)]? = some (some q))) ∧
    Board.adjacent Board.new 0 0 = some (Except.ok false) ∧
    Board.adjacent Board.new 2 3 = some (Except.ok true) := by
  refine ⟨?_, by rfl, by rfl⟩
  intro b x y hb hx hy
  obtain ⟨r, hr, hiff⟩ := anyPopulated_ex hb (Board.neighborCells x y)
    (fun p hp => neighborCells_mem hp)
  refine ⟨r, ?_, ?_⟩
  · unfold Board.adjacent
    rw [if_pos ⟨hx, hy⟩, hr]
  · rw [hiff]
    constructor
    · rintro ⟨p, hp, q, hq⟩
      obtain ⟨d, hd, hin, rfl⟩ := mem_neighborCells.mp hp
      exact ⟨d, hd, hin, q, hq⟩
    · rintro ⟨d, hd, hin, q, hq⟩
      exact ⟨(((x : Int) + d.1).toNat, ((y : Int) + d.2).toNat),
        mem_neighborCells.mpr ⟨d, hd, hin, rfl⟩, q, hq⟩

/-- C7: any number of consecutive `flips` calls leaves every cell of the
board unchanged and returns the same count each time; `flips` takes `&self`,
so in the embedding a call hands its receiver back unmodified. -/
theorem C7_flips_read_only (b : Board) (x y : Nat) (piece : Piece) (n : Nat) :
    (Board.flipsCalls x y piece n b).1 = b ∧
      ∀ r ∈ (Board.flipsCalls x y piece n b).2, r = Board.flips b x y piece := by
  induction n with
  | zero => exact ⟨rfl, by simp [Board.flipsCalls]⟩
  | succ n ih =>
    obtain ⟨h1, h2⟩ := ih
    unfold Board.flipsCalls
    refine ⟨h1, ?_⟩
    intro r hr
    rcases List.mem_cons.mp hr with hr' | hr'
    · exact hr'
    · exact h2 r hr'

/-- C8: the board is a flattened 64-cell container indexed by `x + y * 8`:
`new()` builds `width * width = 64` cells, `width()` is the constant 8, and a
completed `flip` (the only mutating primitive) preserves the cell count. -/
theorem C8_fixed_size :
    Board.new.length = Board.width * Board.width ∧ Board.width = 8 ∧
      (∀ (b : Board) (x y : Nat), Board.read b x y = b[x + y * 8]?) ∧
      (∀ (b : Board) (x y : Nat) (piece : Piece) (b' : Board),
        Board.flip b x y piece = some b' → b'.length = b.length) := by
  refine ⟨by decide, rfl, fun b x y => rfl, ?_⟩
  intro b x y piece b' h
  unfold Board.flip at h
  by_cases hxy : x < Board.width ∧ y < Board.width
  · rw [if_pos hxy] at h
    exact flip_foldl_length DIRECTIONS b b' h
  · rw [if_neg hxy] at h
    cases h

theorem C8_fixed_size_witness :
    Board.flip Board.new 2 3 Piece.Black =
        some (Board.new.set 27 (some Piece.Black)) ∧
      (Board.new.set 27 (some Piece.Black)).length = Board.new.length :=
  ⟨by decide, C8_fixed_size.2.2.2 Board.new 2 3 Piece.Black _ (by decide)⟩

/-- C3: `place` evaluates its checks in the order OutOfBounds, Turn, Occupied,
NotAdjacent, NoFlips, returns the first failing check's error, leaves the
state unmodified on any failure, and placing onto (3,3) on a fresh board
fails with Occupied. (`place` is modelled from the spec: `state.rs` is not
among the supplied sources.) -/
theorem C3_place_check_order :
    (∀ (s : State) (x y : Nat) (piece : Piece),
      ((8 ≤ x ∨ 8 ≤ y) →
        State.place s x y piece =
          some (s, Except.error (PlaceError.OutOfBounds x y))) ∧
      (x < 8 → y < 8 → piece ≠ s.turn →
        State.place s x y piece =
          some (s, Except.error (PlaceError.Turn piece))) ∧
      (∀ q : Piece, x < 8 → y < 8 → piece = s.turn →
        Board.read s.board x y = some (some q) →
        State.place s x y piece =
          some (s, Except.error (PlaceError.Occupied x y))) ∧
      (x < 8 → y < 8 → piece = s.turn → Board.read s.board x y = some none →
        Board.adjacent s.board x y = some (Except.ok false) →
        State.place s x y piece =
          some (s, Except.error (PlaceError.NotAdjacent x y))) ∧
      (x < 8 → y < 8 → piece = s.turn → Board.read s.board x y = some none →
        Board.adjacent s.board x y = some (Except.ok true) →
        Board.flips s.board x y piece = some 0 →
        State.place s x y piece =
          some (s, Except.error (PlaceError.NoFlips x y))) ∧
      (∀ (s' : State) (e : PlaceError),
        State.place s x y piece = some (s', Except.error e) → s' = s)) ∧
    State.place State.new 3 3 Piece.Black =
      some (State.new, Except.error (PlaceError.Occupied 3 3)) := by
  refine ⟨?_, by rfl⟩
  intro s x y piece
  refine ⟨?_, ?_, ?_, ?_, ?_, ?_⟩
  · intro h
    unfold State.place
    rw [if_pos h]
  · intro hx hy ht
    unfold State.place
    rw [if_neg (by omega : ¬(8 ≤ x ∨ 8 ≤ y)), if_pos ht]
  · intro q hx hy ht hocc
    unfold State.place
    rw [if_neg (by omega : ¬(8 ≤ x ∨ 8 ≤ y)),
      if_neg (fun hne => hne ht), hocc]
  · intro hx hy ht hread hadj
    unfold State.place
    rw [if_neg (by omega : ¬(8 ≤ x ∨ 8 ≤ y)),
      if_neg (fun hne => hne ht), hread, hadj]
    rfl
  · intro hx hy ht hread hadj hflips
    unfold State.place
    rw [if_neg (by omega : ¬(8 ≤ x ∨ 8 ≤ y)),
      if_neg (fun hne => hne ht), hread, hadj]
    show (match Board.flips s.board x y piece with
      | none => none
      | some 0 => some (s, Except.error (PlaceError.NoFlips x y))
      | some (_ + 1) =>
        match Board.flip s.board x y piece with
        | none => none
        | some b' =>
          some (⟨b'.set (x + y * Board.width) (some piece), Piece.not s.turn⟩,
            Except.ok ())) =
      some (s, Except.error (PlaceError.NoFlips x y))
    rw [hflips]
  · intro s' e h
    unfold State.place at h
    by_cases h1 : 8 ≤ x ∨ 8 ≤ y
    · rw [if_pos h1] at h
      cases h
      rfl
    · rw [if_neg h1] at h
      by_cases h2 : piece ≠ s.turn
      · rw [if_pos h2] at h
        cases h
        rfl
      · rw [if_neg h2] at h
        cases hread : Board.read s.board x y with
        | none => rw [hread] at h; cases h
        | some cell =>
          rw [hread] at h
          cases cell with
          | some q => cases h; rfl
          | none =>
            cases hadj : Board.adjacent s.board x y with
            | none => rw [hadj] at h; cases h
            | some res =>
              rw [hadj] at h
              cases res with
              | error e' => cases h; rfl
              | ok adj =>
                cases adj
                · cases h; rfl
                · cases hflips : Board.flips s.board x y piece with
                  | none => rw [hflips] at h; cases h
                  | some n =>
                    rw [hflips] at h
                    cases n with
                    | zero => cases h; rfl
                    | succ m =>
                      cases hflip : Board.flip s.board x y piece with
                      | none => rw [hflip] at h; cases h
                      | some b' =>
                        rw [hflip] at h
                        cases h

theorem C3_place_check_order_witness :
    State.place State.new 9 0 Piece.Black =
      some (State.new, Except.error (PlaceError.OutOfBounds 9 0)) :=
  (C3_place_check_order.1 State.new 9 0 Piece.Black).1 (Or.inl (by decide))

/-- C4: on a 64-cell board with the precondition satisfied, `flip` completes
and changes exactly `flips`-many cells (`flips` evaluated on the board before
the call), each changed cell going from the opponent's color to `piece`'s
color; every other cell, including the placing square `(x, y)` itself (which
`flip` does not set), is unchanged. -/
theorem C4_flip_effect (b : Board) (x y : Nat) (piece : Piece)
    (hb : b.length = 64) (hx : x < 8) (hy : y < 8) :
    ∃ (b' : Board) (n : Nat),
      Board.flip b x y piece = some b' ∧ Board.flips b x y piece = some n ∧
      ((Finset.range 64).filter (fun i => b'[i]? ≠ b[i]?)).card = n ∧
      (∀ i : Nat, b'[i]? ≠ b[i]? →
        b[i]? = some (some (Piece.not piece)) ∧ b'[i]? = some (some piece)) ∧
      b'[x + y * 8]? = b[x + y * 8]? := by
  have hin : InB (x : Int) (y : Int) := by
    refine ⟨Int.natCast_nonneg x, Int.natCast_nonneg y, ?_, ?_⟩ <;>
      · simp only [WIDTH]; omega
  obtain ⟨V, hfold, hcount, hnodup, hmem⟩ :=
    fold_spec hb hin DIRECTIONS (fun d hd => hd) DIRECTIONS_nodup b hb
      (fun d hd k hk hkin => rfl)
  have hVlt : ∀ i ∈ V, i < 64 := by
    intro i hi
    obtain ⟨_, d, hd, k, hk, hkin, hkeq⟩ := hmem i hi
    rw [hkeq]
    exact toIdx_lt hkin
  have hwa : ∀ j : Nat, (writeAll b V piece)[j]? =
      if j ∈ V then some (some piece) else b[j]? :=
    writeAll_getElem? piece V b (fun i hi => by rw [hb]; exact hVlt i hi)
  have hchanged : ∀ j : Nat, ((writeAll b V piece)[j]? ≠ b[j]? ↔ j ∈ V) := by
    intro j
    constructor
    · intro hne
      by_contra hj
      rw [hwa j, if_neg hj] at hne
      exact hne rfl
    · intro hj
      obtain ⟨hcell, _⟩ := hmem j hj
      rw [hwa j, if_pos hj, hcell]
      intro he
      exact Piece.not_ne piece (Option.some.inj (Option.some.inj he)).symm
  refine ⟨writeAll b V piece, V.length, ?_, ?_, ?_, ?_, ?_⟩
  · unfold Board.flip
    rw [if_pos ⟨hx, hy⟩]
    exact hfold
  · unfold Board.flips
    rw [if_pos ⟨hx, hy⟩, hcount 0, Nat.zero_add]
  · have hset : (Finset.range 64).filter
        (fun i => (writeAll b V piece)[i]? ≠ b[i]?) = V.toFinset := by
      ext i
      simp only [Finset.mem_filter, Finset.mem_range, List.mem_toFinset]
      constructor
      · rintro ⟨_, hne⟩
        exact (hchanged i).mp hne
      · intro hiV
        exact ⟨hVlt i hiV, (hchanged i).mpr hiV⟩
    rw [hset, List.toFinset_card_of_nodup hnodup]
  · intro i hne
    have hiV := (hchanged i).mp hne
    obtain ⟨hcell, _⟩ := hmem i hiV
    refine ⟨hcell, ?_⟩
    rw [hwa i, if_pos hiV]
  · rw [hwa (x + y * 8), if_neg ?horig]
    case horig =>
      intro hiV
      obtain ⟨_, d, hd, k, hk, hkin, hkeq⟩ := hmem (x + y * 8) hiV
      rw [← toIdx_natCast x y] at hkeq
      exact origin_not_ray hd hin hk hkin hkeq

theorem C4_flip_effect_witness :
    ∃ (b' : Board) (n : Nat),
      Board.flip Board.new 2 3 Piece.Black = some b' ∧
      Board.flips Board.new 2 3 Piece.Black = some n ∧
      ((Finset.range 64).filter (fun i => b'[i]? ≠ Board.new[i]?)).card = n ∧
      (∀ i : Nat, b'[i]? ≠ Board.new[i]? →
        Board.new[i]? = some (some (Piece.not Piece.Black)) ∧
          b'[i]? = some (some Piece.Black)) ∧
      b'[2 + 3 * 8]? = Board.new[2 + 3 * 8]? :=
  C4_flip_effect Board.new 2 3 Piece.Black (by decide) (by decide) (by decide)

theorem C5_adjacent_characterization_witness :
    ∃ r, Board.adjacent Board.new 2 3 = some (Except.ok r) ∧
      (r = true ↔ ∃ d ∈ DIRECTIONS,
        InB ((2 : Nat) + d.1) ((3 : Nat) + d.2) ∧
        ∃ q : Piece,
          Board.new[toIdx ((2 : Nat) + d.1) ((3 : Nat) + d.2)]? =
            some (some q)) :=
  C5_adjacent_characterization.1 Board.new 2 3 (by decide) (by decide) (by decide)

end Othello
